import Mathlib

/-!
Verification of the `uspech.zeromq.router` message router.

This file gives a shallow embedding, in Lean, of `src/uspech/zeromq/router.py`
together with the behavior of the Python standard-library pieces it relies on
(`json.dumps` / `json.loads`, `str.encode('utf8')` / `bytes.decode('utf-8')`,
`int()` on byte strings, `str(int)`, and `uuid4().hex`), and proves the wire
protocol and consumption loop properties stated in the specification.

Byte strings are modelled as `List Nat` (each entry one byte value), Python
values handed to the JSON codec as the inductive type `PyObj`, and real time
as explicit integer parameters (one reading of `time()` per call site, at
whole second granularity, matching the `int(time())` and `int(t)` uses in the
source).  The transport (a zmq ROUTER socket) is external to the repository;
only the two facts the router relies on are modelled: a multipart send hands
the transport one atomic frame list, and an inbound multipart message carries
the sending peer identity as its first frame.
-/

namespace Uspech

/-! ## UTF-8, modelling Python `str.encode('utf8')` and `bytes.decode('utf-8')` -/

/-- UTF-8 encoding of one unicode scalar value, as its list of byte values. -/
def encodeChar (c : Char) : List Nat :=
  let n := c.toNat
  if n < 0x80 then [n]
  else if n < 0x800 then [0xC0 + n / 64, 0x80 + n % 64]
  else if n < 0x10000 then [0xE0 + n / 4096, 0x80 + n / 64 % 64, 0x80 + n % 64]
  else [0xF0 + n / 0x40000, 0x80 + n / 4096 % 64, 0x80 + n / 64 % 64, 0x80 + n % 64]

/-- Model of `str.encode('utf8')`, on the string's character list. -/
def encodeUtf8 (s : List Char) : List Nat :=
  s.flatMap encodeChar

/-- Decode a single UTF-8 scalar value from the front of a byte list, returning
its code point and the remaining bytes.  `none` models malformed input (lead
byte out of range, truncated or malformed continuation bytes). -/
def decode1 : List Nat → Option (Nat × List Nat)
  | [] => none
  | b0 :: bs =>
    if b0 < 0x80 then some (b0, bs)
    else if b0 < 0xC2 then none
    else if b0 < 0xE0 then
      match bs with
      | b1 :: bs1 =>
        if 0x80 ≤ b1 ∧ b1 < 0xC0 then some ((b0 - 0xC0) * 64 + (b1 - 0x80), bs1) else none
      | [] => none
    else if b0 < 0xF0 then
      match bs with
      | b1 :: b2 :: bs2 =>
        if (0x80 ≤ b1 ∧ b1 < 0xC0) ∧ (0x80 ≤ b2 ∧ b2 < 0xC0) then
          some ((b0 - 0xE0) * 4096 + (b1 - 0x80) * 64 + (b2 - 0x80), bs2)
        else none
      | _ => none
    else if b0 < 0xF5 then
      match bs with
      | b1 :: b2 :: b3 :: bs3 =>
        if (0x80 ≤ b1 ∧ b1 < 0xC0) ∧ (0x80 ≤ b2 ∧ b2 < 0xC0) ∧ (0x80 ≤ b3 ∧ b3 < 0xC0) then
          some ((b0 - 0xF0) * 0x40000 + (b1 - 0x80) * 4096 + (b2 - 0x80) * 64 + (b3 - 0x80), bs3)
        else none
      | _ => none
    else none

/-- Fuelled decoding loop; one unit of fuel per decoded scalar suffices. -/
def decodeLoop : Nat → List Nat → Option (List Char)
  | _, [] => some []
  | 0, _ :: _ => none
  | fuel + 1, b :: bs =>
    match decode1 (b :: bs) with
    | some (n, rest) => (decodeLoop fuel rest).map (fun cs => Char.ofNat n :: cs)
    | none => none

/-- Model of `bytes.decode('utf-8')`: `none` models a raised
`UnicodeDecodeError`.  (The model accepts some byte sequences a strict decoder
rejects, such as overlong encodings; no claim depends on those.) -/
def decodeUtf8 (bs : List Nat) : Option (List Char) :=
  decodeLoop bs.length bs

theorem decode1_encodeChar (c : Char) (bs : List Nat) :
    decode1 (encodeChar c ++ bs) = some (c.toNat, bs) := by
  have hv : c.toNat < 0xD800 ∨ (0xDFFF < c.toNat ∧ c.toNat < 0x110000) := c.valid
  by_cases h1 : c.toNat < 0x80
  · simp only [encodeChar, h1, if_pos, List.cons_append, List.nil_append, decode1, if_true]
  · by_cases h2 : c.toNat < 0x800
    · simp only [encodeChar, h1, if_neg, h2, if_pos, List.cons_append, List.nil_append, decode1,
        not_false_iff]
      rw [if_neg (by omega), if_neg (by omega), if_pos (by omega), if_pos (by omega)]
      have harith : (0xC0 + c.toNat / 64 - 0xC0) * 64 + (0x80 + c.toNat % 64 - 0x80)
          = c.toNat := by omega
      rw [harith]
    · by_cases h3 : c.toNat < 0x10000
      · simp only [encodeChar, h1, h2, h3, if_neg, if_pos, List.cons_append, List.nil_append,
          decode1, not_false_iff]
        rw [if_neg (by omega), if_neg (by omega), if_neg (by omega), if_pos (by omega),
          if_pos (by omega)]
        have harith : (0xE0 + c.toNat / 4096 - 0xE0) * 4096 + (0x80 + c.toNat / 64 % 64 - 0x80) * 64
            + (0x80 + c.toNat % 64 - 0x80) = c.toNat := by omega
        rw [harith]
      · have h4 : c.toNat < 0x110000 := by omega
        simp only [encodeChar, h1, h2, h3, if_neg, List.cons_append, List.nil_append,
          decode1, not_false_iff]
        rw [if_neg (by omega), if_neg (by omega), if_neg (by omega), if_neg (by omega),
          if_pos (by omega), if_pos (by omega)]
        have harith : (0xF0 + c.toNat / 0x40000 - 0xF0) * 0x40000
            + (0x80 + c.toNat / 4096 % 64 - 0x80) * 4096
            + (0x80 + c.toNat / 64 % 64 - 0x80) * 64 + (0x80 + c.toNat % 64 - 0x80) = c.toNat := by
          omega
        rw [harith]

theorem encodeChar_length_pos (c : Char) : 0 < (encodeChar c).length := by
  rw [encodeChar]
  split
  · simp
  · split
    · simp
    · split <;> simp

theorem decodeLoop_encodeUtf8 : ∀ (s : List Char) (fuel : Nat),
    (encodeUtf8 s).length ≤ fuel → decodeLoop fuel (encodeUtf8 s) = some s := by
  intro s
  induction s with
  | nil => intro fuel _; simp [encodeUtf8, decodeLoop]
  | cons c cs ih =>
    intro fuel hf
    have henc : encodeUtf8 (c :: cs) = encodeChar c ++ encodeUtf8 cs := by
      simp [encodeUtf8]
    have hpos := encodeChar_length_pos c
    have hlen : 0 < (encodeUtf8 (c :: cs)).length := by
      rw [henc]; simp; omega
    obtain ⟨f, rfl⟩ : ∃ f, fuel = f + 1 := ⟨fuel - 1, by omega⟩
    obtain ⟨b, t, hbt⟩ : ∃ b t, encodeChar c ++ encodeUtf8 cs = b :: t := by
      cases h : encodeChar c with
      | nil => rw [h] at hpos; simp at hpos
      | cons x xs => exact ⟨x, xs ++ encodeUtf8 cs, by simp [h]⟩
    have hrest : (encodeUtf8 cs).length ≤ f := by
      rw [henc] at hf; simp at hf; omega
    rw [henc, hbt, decodeLoop, ← hbt, decode1_encodeChar]
    simp [ih f hrest, Char.ofNat_toNat]

/-- UTF-8 decoding undoes UTF-8 encoding, on any character list. -/
theorem decodeUtf8_encodeUtf8 (s : List Char) : decodeUtf8 (encodeUtf8 s) = some s :=
  decodeLoop_encodeUtf8 s _ (Nat.le_refl _)

theorem encodeUtf8_ascii (s : List Char) (h : ∀ c ∈ s, c.toNat < 0x80) :
    encodeUtf8 s = s.map Char.toNat := by
  induction s with
  | nil => rfl
  | cons c cs ih =>
    have hc : c.toNat < 0x80 := h c (by simp)
    have htl : ∀ x ∈ cs, x.toNat < 0x80 := fun x hx => h x (by simp [hx])
    simp [encodeUtf8, encodeChar, hc] at ih ⊢
    exact ih htl

/-! ## Decimal rendering and parsing, modelling `str(int)` and `int(bytes)` -/

/-- Decimal digit characters of a natural number, most significant first;
fuelled so that the definition evaluates by kernel reduction. -/
def natCharsAux : Nat → Nat → List Char
  | 0, _ => []
  | fuel + 1, n =>
    if n < 10 then [Char.ofNat (48 + n)]
    else natCharsAux fuel (n / 10) ++ [Char.ofNat (48 + n % 10)]

/-- Decimal digits of a natural number (`str` on a nonnegative int). -/
def natChars (n : Nat) : List Char := natCharsAux (n + 1) n

/-- Model of Python `str` on an int: optional minus sign and decimal digits. -/
def intChars (i : Int) : List Char :=
  if i < 0 then '-' :: natChars i.natAbs else natChars i.natAbs

theorem natCharsAux_fuel : ∀ (n f1 f2 : Nat), 0 < f1 → 0 < f2 →
    n < 10 ^ f1 → n < 10 ^ f2 → natCharsAux f1 n = natCharsAux f2 n := by
  intro n
  induction n using Nat.strongRecOn with
  | _ n ih =>
    intro f1 f2 h1 h2 hb1 hb2
    obtain ⟨g1, rfl⟩ : ∃ g, f1 = g + 1 := ⟨f1 - 1, by omega⟩
    obtain ⟨g2, rfl⟩ : ∃ g, f2 = g + 1 := ⟨f2 - 1, by omega⟩
    by_cases hn : n < 10
    · simp [natCharsAux, hn]
    · have hq : n / 10 < n := Nat.div_lt_self (by omega) (by omega)
      have hg1 : 0 < g1 := by
        by_contra h
        have : g1 = 0 := by omega
        subst this
        simp [pow_succ, pow_zero] at hb1
        omega
      have hg2 : 0 < g2 := by
        by_contra h
        have : g2 = 0 := by omega
        subst this
        simp [pow_succ, pow_zero] at hb2
        omega
      have hq1 : n / 10 < 10 ^ g1 := by
        rw [Nat.div_lt_iff_lt_mul (by omega)]
        calc n < 10 ^ (g1 + 1) := hb1
        _ = 10 ^ g1 * 10 := by rw [pow_succ]
      have hq2 : n / 10 < 10 ^ g2 := by
        rw [Nat.div_lt_iff_lt_mul (by omega)]
        calc n < 10 ^ (g2 + 1) := hb2
        _ = 10 ^ g2 * 10 := by rw [pow_succ]
      simp only [natCharsAux, hn, if_neg, not_false_iff, if_false]
      rw [ih (n / 10) hq g1 g2 hg1 hg2 hq1 hq2]

theorem lt_ten_pow_self (n : Nat) : n < 10 ^ n :=
  lt_of_lt_of_le (Nat.lt_two_pow n) (Nat.pow_le_pow_left (by omega) n)

theorem lt_ten_pow_succ_self (n : Nat) : n < 10 ^ (n + 1) :=
  lt_of_lt_of_le (lt_ten_pow_self n) (Nat.pow_le_pow_right (by omega) (by omega))

/-- The defining recurrence of `natChars`, fuel eliminated. -/
theorem natChars_eq (n : Nat) : natChars n
    = if n < 10 then [Char.ofNat (48 + n)]
      else natChars (n / 10) ++ [Char.ofNat (48 + n % 10)] := by
  by_cases hn : n < 10
  · simp [natChars, natCharsAux, hn]
  · rw [natChars, natCharsAux, if_neg hn, natChars]
    rw [natCharsAux_fuel (n / 10) n (n / 10 + 1) (by omega) (by omega)
      (lt_of_le_of_lt (Nat.div_le_self n 10) (lt_ten_pow_self n))
      (lt_ten_pow_succ_self (n / 10))]
    simp [hn]

theorem natChars_ne_nil (n : Nat) : natChars n ≠ [] := by
  rw [natChars_eq]
  by_cases hn : n < 10 <;> simp [hn]

theorem digitChar_toNat (k : Nat) (h : k < 10) : (Char.ofNat (48 + k)).toNat = 48 + k := by
  interval_cases k <;> rfl

theorem natChars_digits (n : Nat) : ∀ c ∈ natChars n, 48 ≤ c.toNat ∧ c.toNat ≤ 57 := by
  induction n using Nat.strongRecOn with
  | _ n ih =>
    rw [natChars_eq]
    by_cases hn : n < 10
    · simp only [hn, if_pos, List.mem_singleton]
      intro c hc
      subst hc
      rw [digitChar_toNat n hn]
      omega
    · simp only [hn, if_neg, not_false_iff, if_false, List.mem_append, List.mem_singleton]
      intro c hc
      rcases hc with hc | hc
      · exact ih (n / 10) (Nat.div_lt_self (by omega) (by omega)) c hc
      · subst hc
        rw [digitChar_toNat (n % 10) (Nat.mod_lt n (by omega))]
        omega

/-- Numeric value of a decimal digit string, as the parsers fold it up. -/
def digitsVal (ds : List Char) : Nat :=
  ds.foldl (fun a c => a * 10 + (c.toNat - 48)) 0

theorem digitsVal_natChars (n : Nat) : digitsVal (natChars n) = n := by
  induction n using Nat.strongRecOn with
  | _ n ih =>
    rw [digitsVal, natChars_eq]
    by_cases hn : n < 10
    · simp only [hn, if_pos, List.foldl_cons, List.foldl_nil]
      rw [digitChar_toNat n hn]
      omega
    · simp only [hn, if_neg, not_false_iff, if_false, List.foldl_append, List.foldl_cons,
        List.foldl_nil]
      have hih := ih (n / 10) (Nat.div_lt_self (by omega) (by omega))
      rw [digitsVal] at hih
      rw [hih, digitChar_toNat (n % 10) (Nat.mod_lt n (by omega))]
      omega

/-- Digits of a natural number are plain ASCII. -/
theorem natChars_ascii (n : Nat) : ∀ c ∈ natChars n, c.toNat < 0x80 := by
  intro c hc
  have := natChars_digits n c hc
  omega

/-- Helper for Python `int()` on bytes: the all-digits numeric interpretation. -/
def natOfDigits (bs : List Nat) : Option Nat :=
  match bs with
  | [] => none
  | _ =>
    if bs.all (fun b => decide (48 ≤ b ∧ b ≤ 57)) then
      some (bs.foldl (fun a b => a * 10 + (b - 48)) 0)
    else none

/-- Model of Python `int()` applied to an ASCII byte string, as `__anext__`
applies it to the timestamp frame: an optional minus sign followed by decimal
digits; `none` models a raised `ValueError`.  (Python additionally tolerates
surrounding whitespace, a plus sign and underscores; the router never produces
those and no claim depends on them.) -/
def intOfBytes (bs : List Nat) : Option Int :=
  match bs with
  | [] => none
  | b :: rest =>
    if b = 45 then (natOfDigits rest).map (fun n => -(n : Int))
    else (natOfDigits (b :: rest)).map (fun n => (n : Int))

theorem natOfDigits_natChars (n : Nat) :
    natOfDigits ((natChars n).map Char.toNat) = some n := by
  obtain ⟨c, t, hct⟩ : ∃ c t, natChars n = c :: t := by
    cases h : natChars n with
    | nil => exact absurd h (natChars_ne_nil n)
    | cons c t => exact ⟨c, t, rfl⟩
  have hall : ((natChars n).map Char.toNat).all (fun b => decide (48 ≤ b ∧ b ≤ 57)) = true := by
    rw [List.all_eq_true]
    intro b hb
    rw [List.mem_map] at hb
    obtain ⟨c0, hc0, rfl⟩ := hb
    have := natChars_digits n c0 hc0
    simp only [decide_eq_true_eq]
    omega
  have hfold : ((natChars n).map Char.toNat).foldl (fun a b => a * 10 + (b - 48)) 0 = n := by
    rw [List.foldl_map]
    exact digitsVal_natChars n
  rw [hct] at hall hfold ⊢
  simp only [List.map_cons] at hall hfold ⊢
  simp only [natOfDigits]
  rw [if_pos hall, hfold]

/-- Python `int()` on bytes undoes UTF-8-encoded `str()` on an int. -/
theorem intOfBytes_intChars (t : Int) : intOfBytes (encodeUtf8 (intChars t)) = some t := by
  by_cases ht : t < 0
  · rw [intChars, if_pos ht]
    have henc : encodeUtf8 ('-' :: natChars t.natAbs)
        = 45 :: (natChars t.natAbs).map Char.toNat := by
      have : ∀ c ∈ '-' :: natChars t.natAbs, c.toNat < 0x80 := by
        intro c hc
        rcases List.mem_cons.mp hc with rfl | hc
        · decide
        · exact natChars_ascii _ c hc
      rw [encodeUtf8_ascii _ this]
      rfl
    rw [henc, intOfBytes, if_pos rfl, natOfDigits_natChars]
    show some (-(t.natAbs : Int)) = some t
    rw [show -(t.natAbs : Int) = t by omega]
  · rw [intChars, if_neg ht]
    obtain ⟨c, cs, hct⟩ : ∃ c cs, natChars t.natAbs = c :: cs := by
      cases h : natChars t.natAbs with
      | nil => exact absurd h (natChars_ne_nil _)
      | cons c cs => exact ⟨c, cs, rfl⟩
    have henc : encodeUtf8 (natChars t.natAbs) = (natChars t.natAbs).map Char.toNat :=
      encodeUtf8_ascii _ (natChars_ascii _)
    have hc48 : 48 ≤ c.toNat := (natChars_digits _ c (by rw [hct]; simp)).1
    rw [henc, hct, List.map_cons, intOfBytes, if_neg (by omega), ← List.map_cons, ← hct,
      natOfDigits_natChars]
    show some ((t.natAbs : Int)) = some t
    rw [show (t.natAbs : Int) = t by omega]

/-! ## Python values and the JSON codec, modelling `json.dumps` and `json.loads` -/

/-- Python values as the router hands them to the JSON codec.  `pyObject`
stands in for any Python object the JSON codec cannot represent (a set, a
custom class instance, ...), tagged with the name of its type. -/
inductive PyObj where
  | pyNone
  | pyBool (b : Bool)
  | pyInt (i : Int)
  | pyStr (s : String)
  | pyList (xs : List PyObj)
  | pyDict (kvs : List (String × PyObj))
  | pyObject (typeName : String)

/-- Lowercase hexadecimal digit character for a value below 16. -/
def hexChar (k : Nat) : Char :=
  if k < 10 then Char.ofNat (48 + k) else Char.ofNat (87 + k)

/-- JSON escaping of one character, as the `json` module emits it: mandatory
escapes for the backslash, the double quote and control characters (short
forms for backspace, tab, newline, form feed and carriage return, `\u00XX`
otherwise), all other characters passed through (the `ensure_ascii=False`
treatment of non-ASCII characters; the default would escape those as well,
which no claim depends on). -/
def escChar (c : Char) : List Char :=
  if c = '\\' then ['\\', '\\']
  else if c = '"' then ['\\', '"']
  else if c.toNat = 8 then ['\\', 'b']
  else if c.toNat = 9 then ['\\', 't']
  else if c.toNat = 10 then ['\\', 'n']
  else if c.toNat = 12 then ['\\', 'f']
  else if c.toNat = 13 then ['\\', 'r']
  else if c.toNat < 32 then
    ['\\', 'u', '0', '0', hexChar (c.toNat / 16), hexChar (c.toNat % 16)]
  else [c]

/-- A JSON string literal: quote, escaped characters, quote. -/
def strChars (s : String) : List Char :=
  '"' :: (s.data.flatMap escChar ++ ['"'])

/-- Separator-prefixed tail chunks of a joined rendering. -/
def joinTail : List (List Char) → List Char
  | [] => []
  | q :: qs => ',' :: ' ' :: (q ++ joinTail qs)

/-- Join rendered chunks with the default `json.dumps` item separator. -/
def joinComma : List (List Char) → List Char
  | [] => []
  | p :: ps => p ++ joinTail ps

mutual

/-- Model of `json.dumps` (with its default separators), producing the JSON
text of a value; an `error` models the `TypeError` raised on a value the
codec cannot represent.  Container entries are rendered by `dumpsItems` and
`dumpsEntries`. -/
def dumpsVal : PyObj → Except String (List Char)
  | .pyNone => .ok ['n', 'u', 'l', 'l']
  | .pyBool true => .ok ['t', 'r', 'u', 'e']
  | .pyBool false => .ok ['f', 'a', 'l', 's', 'e']
  | .pyInt i => .ok (intChars i)
  | .pyStr s => .ok (strChars s)
  | .pyList xs => (dumpsItems xs).map (fun ps => '[' :: (joinComma ps ++ [']']))
  | .pyDict kvs => (dumpsEntries kvs).map (fun ps => '{' :: (joinComma ps ++ ['}']))
  | .pyObject ty => .error ("Object of type " ++ ty ++ " is not JSON serializable")

/-- Rendered list elements, propagating the first serialization error. -/
def dumpsItems : List PyObj → Except String (List (List Char))
  | [] => .ok []
  | x :: xs =>
    match dumpsVal x, dumpsItems xs with
    | .ok cx, .ok cxs => .ok (cx :: cxs)
    | .error e, _ => .error e
    | _, .error e => .error e

/-- Rendered dict entries (`key, colon, space, value`), propagating errors. -/
def dumpsEntries : List (String × PyObj) → Except String (List (List Char))
  | [] => .ok []
  | (k, v) :: rest =>
    match dumpsVal v, dumpsEntries rest with
    | .ok cv, .ok crest => .ok ((strChars k ++ ':' :: ' ' :: cv) :: crest)
    | .error e, _ => .error e
    | _, .error e => .error e

end

/-- Model of `json.dumps`, the name the source imports. -/
def dumps (message : PyObj) : Except String (List Char) := dumpsVal message

/-- JSON insignificant whitespace (space, tab, newline, carriage return). -/
def isWsChar (c : Char) : Bool :=
  c == ' ' || c == Char.ofNat 9 || c == Char.ofNat 10 || c == Char.ofNat 13

/-- Drop leading insignificant whitespace. -/
def wsSkip : List Char → List Char
  | [] => []
  | c :: cs => if isWsChar c then wsSkip cs else c :: cs

/-- Decimal digit test. -/
def isDig (c : Char) : Bool :=
  decide (48 ≤ c.toNat ∧ c.toNat ≤ 57)

/-- Split a character list into its leading run of digits and the remainder. -/
def digSpan : List Char → List Char × List Char
  | [] => ([], [])
  | c :: cs =>
    if isDig c then
      let p := digSpan cs
      (c :: p.1, p.2)
    else ([], c :: cs)

/-- Value of a hexadecimal digit character. -/
def hexVal (c : Char) : Option Nat :=
  if 48 ≤ c.toNat ∧ c.toNat ≤ 57 then some (c.toNat - 48)
  else if 97 ≤ c.toNat ∧ c.toNat ≤ 102 then some (c.toNat - 87)
  else if 65 ≤ c.toNat ∧ c.toNat ≤ 70 then some (c.toNat - 55)
  else none

/-- The character a short JSON escape stands for. -/
def unescChar (e : Char) : Option Char :=
  if e = '"' then some '"'
  else if e = '\\' then some '\\'
  else if e = '/' then some '/'
  else if e = 'b' then some (Char.ofNat 8)
  else if e = 'f' then some (Char.ofNat 12)
  else if e = 'n' then some (Char.ofNat 10)
  else if e = 'r' then some (Char.ofNat 13)
  else if e = 't' then some (Char.ofNat 9)
  else none

/-- Lex one unit of a JSON string body: `some (none, rest)` at the closing
quote, `some (some c, rest)` for one content character (escaped or plain),
`none` on malformed input. -/
def strChar1 : List Char → Option (Option Char × List Char)
  | [] => none
  | c :: cs =>
    if c = '"' then some (none, cs)
    else if c = '\\' then
      match cs with
      | [] => none
      | e :: cs2 =>
        if e = 'u' then
          match cs2 with
          | a :: b :: x :: d :: cs3 =>
            match hexVal a, hexVal b, hexVal x, hexVal d with
            | some va, some vb, some vx, some vd =>
              some (some (Char.ofNat (((va * 16 + vb) * 16 + vx) * 16 + vd)), cs3)
            | _, _, _, _ => none
          | _ => none
        else (unescChar e).map (fun u => (some u, cs2))
    else some (some c, cs)

/-- Fuelled loop collecting a JSON string body up to its closing quote. -/
def strLoop : Nat → List Char → Option (List Char × List Char)
  | 0, _ => none
  | fuel + 1, cs =>
    match strChar1 cs with
    | some (none, rest) => some ([], rest)
    | some (some c, rest) => (strLoop fuel rest).map (fun p => (c :: p.1, p.2))
    | none => none

/-- Parse a JSON string body (after the opening quote): the content characters
and the remainder after the closing quote. -/
def strBody (cs : List Char) : Option (List Char × List Char) :=
  strLoop (cs.length + 1) cs

/-- Parse a JSON integer: optional minus sign, then decimal digits. -/
def numParse (cs : List Char) : Option (Int × List Char) :=
  match cs with
  | [] => none
  | c :: cs1 =>
    if c = '-' then
      if (digSpan cs1).1.isEmpty then none
      else some (-(digitsVal (digSpan cs1).1 : Int), (digSpan cs1).2)
    else
      if (digSpan (c :: cs1)).1.isEmpty then none
      else some ((digitsVal (digSpan (c :: cs1)).1 : Int), (digSpan (c :: cs1)).2)

mutual

/-- Fuelled recursive-descent JSON value parser (the grammar restricted to the
values `PyObj` covers; number fractions and exponents, which decode to floats,
are not modelled).  Returns the value and the unconsumed remainder. -/
def jsonVal : Nat → List Char → Option (PyObj × List Char)
  | 0, _ => none
  | fuel + 1, cs =>
    match wsSkip cs with
    | [] => none
    | c :: r =>
      if c = 'n' then
        match r with
        | 'u' :: 'l' :: 'l' :: r2 => some (.pyNone, r2)
        | _ => none
      else if c = 't' then
        match r with
        | 'r' :: 'u' :: 'e' :: r2 => some (.pyBool true, r2)
        | _ => none
      else if c = 'f' then
        match r with
        | 'a' :: 'l' :: 's' :: 'e' :: r2 => some (.pyBool false, r2)
        | _ => none
      else if c = '"' then (strBody r).map (fun p => (.pyStr (String.mk p.1), p.2))
      else if c = '[' then
        match wsSkip r with
        | [] => none
        | c2 :: r2 =>
          if c2 = ']' then some (.pyList [], r2)
          else (jsonItems fuel (c2 :: r2)).map (fun p => (.pyList p.1, p.2))
      else if c = '{' then
        match wsSkip r with
        | [] => none
        | c2 :: r2 =>
          if c2 = '}' then some (.pyDict [], r2)
          else (jsonEntries fuel (c2 :: r2)).map (fun p => (.pyDict p.1, p.2))
      else if c = '-' ∨ isDig c then (numParse (c :: r)).map (fun p => (.pyInt p.1, p.2))
      else none

/-- One-or-more comma-separated array elements, up to the closing bracket. -/
def jsonItems : Nat → List Char → Option (List PyObj × List Char)
  | 0, _ => none
  | fuel + 1, cs =>
    match jsonVal fuel cs with
    | none => none
    | some (v, r) =>
      match wsSkip r with
      | ',' :: r2 => (jsonItems fuel (wsSkip r2)).map (fun p => (v :: p.1, p.2))
      | ']' :: r2 => some ([v], r2)
      | _ => none

/-- One-or-more comma-separated object members, up to the closing brace. -/
def jsonEntries : Nat → List Char → Option (List (String × PyObj) × List Char)
  | 0, _ => none
  | fuel + 1, cs =>
    match wsSkip cs with
    | '"' :: r =>
      (match strBody r with
      | none => none
      | some (k, r1) =>
        match wsSkip r1 with
        | ':' :: r2 =>
          (match jsonVal fuel (wsSkip r2) with
          | none => none
          | some (v, r3) =>
            match wsSkip r3 with
            | ',' :: r4 => (jsonEntries fuel (wsSkip r4)).map
                (fun p => ((String.mk k, v) :: p.1, p.2))
            | '}' :: r4 => some ([(String.mk k, v)], r4)
            | _ => none)
        | _ => none)
    | _ => none

end

/-- Model of `json.loads`, the name the source imports: parse a complete JSON
document; an `error` models a raised `JSONDecodeError`. -/
def loads (cs : List Char) : Except String PyObj :=
  match jsonVal (cs.length + 1) cs with
  | some (v, rest) => if wsSkip rest = [] then .ok v else .error "Extra data"
  | none => .error "Expecting value"

/-! ## Inversion lemmas: the parser undoes the printer -/

theorem wsSkip_cons (c : Char) (l : List Char) (h : isWsChar c = false) :
    wsSkip (c :: l) = c :: l := by
  simp [wsSkip, h]

theorem wsSkip_space (l : List Char) : wsSkip (' ' :: l) = wsSkip l := by
  simp [wsSkip, isWsChar]

theorem hexVal_hexChar (k : Nat) (h : k < 16) : hexVal (hexChar k) = some k := by
  interval_cases k <;> rfl

theorem escChar_length_pos (c : Char) : 0 < (escChar c).length := by
  rw [escChar]
  repeat' split
  all_goals simp

theorem strChar1_escChar (c : Char) (rest : List Char) :
    strChar1 (escChar c ++ rest) = some (some c, rest) := by
  by_cases h1 : c = '\\'
  · subst h1; rfl
  · by_cases h2 : c = '"'
    · subst h2; rfl
    · by_cases h3 : c.toNat = 8
      · have hc : c = Char.ofNat 8 := by rw [← Char.ofNat_toNat c, h3]
        subst hc; rfl
      · by_cases h4 : c.toNat = 9
        · have hc : c = Char.ofNat 9 := by rw [← Char.ofNat_toNat c, h4]
          subst hc; rfl
        · by_cases h5 : c.toNat = 10
          · have hc : c = Char.ofNat 10 := by rw [← Char.ofNat_toNat c, h5]
            subst hc; rfl
          · by_cases h6 : c.toNat = 12
            · have hc : c = Char.ofNat 12 := by rw [← Char.ofNat_toNat c, h6]
              subst hc; rfl
            · by_cases h7 : c.toNat = 13
              · have hc : c = Char.ofNat 13 := by rw [← Char.ofNat_toNat c, h7]
                subst hc; rfl
              · by_cases h8 : c.toNat < 32
                · rw [escChar, if_neg h1, if_neg h2, if_neg h3, if_neg h4, if_neg h5, if_neg h6,
                    if_neg h7, if_pos h8]
                  simp only [List.cons_append, List.nil_append, strChar1, if_true]
                  rw [hexVal_hexChar (c.toNat / 16) (by omega),
                    hexVal_hexChar (c.toNat % 16) (by omega),
                    show hexVal '0' = some 0 from rfl]
                  have harith : c.toNat / 16 * 16 + c.toNat % 16 = c.toNat := by omega
                  simp [harith, Char.ofNat_toNat]
                · rw [escChar, if_neg h1, if_neg h2, if_neg h3, if_neg h4, if_neg h5, if_neg h6,
                    if_neg h7, if_neg h8]
                  simp only [List.cons_append, List.nil_append, strChar1]
                  rw [if_neg h2, if_neg h1]

theorem strLoop_escape : ∀ (s : List Char) (fuel : Nat) (rest : List Char),
    (s.flatMap escChar).length + 1 ≤ fuel →
    strLoop fuel (s.flatMap escChar ++ '"' :: rest) = some (s, rest) := by
  intro s
  induction s with
  | nil =>
    intro fuel rest hf
    obtain ⟨f, rfl⟩ : ∃ f, fuel = f + 1 := ⟨fuel - 1, by omega⟩
    simp [strLoop, strChar1]
  | cons c cs ih =>
    intro fuel rest hf
    obtain ⟨f, rfl⟩ : ∃ f, fuel = f + 1 := ⟨fuel - 1, by omega⟩
    rw [List.flatMap_cons, List.append_assoc, strLoop, strChar1_escChar]
    have hrec : (cs.flatMap escChar).length + 1 ≤ f := by
      have := escChar_length_pos c
      rw [List.flatMap_cons, List.length_append] at hf
      omega
    show (strLoop f (cs.flatMap escChar ++ '"' :: rest)).map (fun p => (c :: p.1, p.2))
      = some (c :: cs, rest)
    rw [ih f rest hrec]
    rfl

theorem strBody_escape (s : List Char) (rest : List Char) :
    strBody (s.flatMap escChar ++ '"' :: rest) = some (s, rest) := by
  rw [strBody]
  exact strLoop_escape s _ rest (by simp [List.length_append])

/-- What can legitimately follow a complete rendered JSON value: the end of
input or a separator or closing bracket. -/
def delim1 : List Char → Prop
  | [] => True
  | c :: _ => c = ',' ∨ c = ']' ∨ c = '}'

theorem digSpan_stop (l : List Char) (h : delim1 l) : digSpan l = ([], l) := by
  cases l with
  | nil => rfl
  | cons c t =>
    rcases h with h | h | h
    all_goals (subst h; rfl)

theorem digSpan_digits (ds : List Char) (hds : ∀ c ∈ ds, isDig c = true) (rest : List Char)
    (hrest : digSpan rest = ([], rest)) : digSpan (ds ++ rest) = (ds, rest) := by
  induction ds with
  | nil => simpa using hrest
  | cons c t ih =>
    have hc : isDig c = true := hds c (by simp)
    have ht := ih (fun x hx => hds x (by simp [hx]))
    simp [digSpan, hc, ht]

theorem natChars_isDig (n : Nat) : ∀ c ∈ natChars n, isDig c = true := by
  intro c hc
  have := natChars_digits n c hc
  rw [isDig, decide_eq_true_eq]
  omega

theorem natChars_cons (n : Nat) : ∃ c t, natChars n = c :: t ∧ isDig c = true := by
  cases h : natChars n with
  | nil => exact absurd h (natChars_ne_nil n)
  | cons c t => exact ⟨c, t, rfl, natChars_isDig n c (by rw [h]; simp)⟩

theorem isDig_ne_minus (c : Char) (h : isDig c = true) : c ≠ '-' := by
  intro hc
  subst hc
  revert h
  decide

theorem numParse_intChars (i : Int) (rest : List Char) (h : digSpan rest = ([], rest)) :
    numParse (intChars i ++ rest) = some (i, rest) := by
  obtain ⟨c0, t0, h0, hd0⟩ := natChars_cons i.natAbs
  have hempty : (natChars i.natAbs).isEmpty = false := by rw [h0]; rfl
  by_cases hi : i < 0
  · rw [intChars, if_pos hi, List.cons_append, numParse, if_pos rfl,
      digSpan_digits _ (natChars_isDig _) _ h]
    simp only [hempty, Bool.false_eq_true, if_false, digitsVal_natChars]
    rw [show -(i.natAbs : Int) = i by omega]
  · rw [intChars, if_neg hi, h0, List.cons_append, numParse, if_neg (isDig_ne_minus c0 hd0),
      ← List.cons_append, ← h0, digSpan_digits _ (natChars_isDig _) _ h]
    simp only [hempty, Bool.false_eq_true, if_false, digitsVal_natChars]
    rw [show (i.natAbs : Int) = i by omega]

theorem digit_not_special (c : Char) (h : isDig c = true) :
    c ≠ 'n' ∧ c ≠ 't' ∧ c ≠ 'f' ∧ c ≠ '"' ∧ c ≠ '[' ∧ c ≠ '{' ∧ isWsChar c = false
      ∧ c ≠ ']' ∧ c ≠ '}' ∧ c ≠ ',' := by
  rw [isDig, decide_eq_true_eq] at h
  refine ⟨?_, ?_, ?_, ?_, ?_, ?_, ?_, ?_, ?_, ?_⟩
  · intro hc; subst hc; revert h; decide
  · intro hc; subst hc; revert h; decide
  · intro hc; subst hc; revert h; decide
  · intro hc; subst hc; revert h; decide
  · intro hc; subst hc; revert h; decide
  · intro hc; subst hc; revert h; decide
  · simp only [isWsChar, Bool.or_eq_false_iff, beq_eq_false_iff_ne]
    refine ⟨⟨⟨?_, ?_⟩, ?_⟩, ?_⟩
    all_goals (intro hc; subst hc; revert h; decide)
  · intro hc; subst hc; revert h; decide
  · intro hc; subst hc; revert h; decide
  · intro hc; subst hc; revert h; decide

theorem dumpsVal_head (v : PyObj) (s : List Char) (h : dumpsVal v = .ok s) :
    ∃ c t, s = c :: t ∧ isWsChar c = false ∧ c ≠ ']' ∧ c ≠ '}' := by
  cases v with
  | pyNone =>
    rw [dumpsVal] at h
    cases h
    exact ⟨'n', _, rfl, by decide, by decide, by decide⟩
  | pyBool b =>
    cases b
    all_goals (rw [dumpsVal] at h; cases h)
    · exact ⟨'f', _, rfl, by decide, by decide, by decide⟩
    · exact ⟨'t', _, rfl, by decide, by decide, by decide⟩
  | pyInt i =>
    rw [dumpsVal] at h
    cases h
    by_cases hi : i < 0
    · rw [intChars, if_pos hi]
      exact ⟨'-', _, rfl, by decide, by decide, by decide⟩
    · rw [intChars, if_neg hi]
      obtain ⟨c0, t0, h0, hd0⟩ := natChars_cons i.natAbs
      obtain ⟨_, _, _, _, _, _, hws, hrb, hcb, _⟩ := digit_not_special c0 hd0
      exact ⟨c0, t0, h0, hws, hrb, hcb⟩
  | pyStr s0 =>
    rw [dumpsVal] at h
    cases h
    exact ⟨'"', _, rfl, by decide, by decide, by decide⟩
  | pyList xs =>
    rw [dumpsVal] at h
    cases hx : dumpsItems xs with
    | error e => rw [hx] at h; cases h
    | ok ps =>
      rw [hx] at h
      cases h
      exact ⟨'[', _, rfl, by decide, by decide, by decide⟩
  | pyDict kvs =>
    rw [dumpsVal] at h
    cases hx : dumpsEntries kvs with
    | error e => rw [hx] at h; cases h
    | ok ps =>
      rw [hx] at h
      cases h
      exact ⟨'{', _, rfl, by decide, by decide, by decide⟩
  | pyObject ty =>
    rw [dumpsVal] at h
    cases h

theorem dumpsItems_cons (x : PyObj) (xs : List PyObj) (ps : List (List Char))
    (h : dumpsItems (x :: xs) = .ok ps) :
    ∃ p ps2, ps = p :: ps2 ∧ dumpsVal x = .ok p ∧ dumpsItems xs = .ok ps2 := by
  rw [dumpsItems] at h
  cases hx : dumpsVal x with
  | error e => rw [hx] at h; simp at h
  | ok p =>
    cases hxs : dumpsItems xs with
    | error e => rw [hx, hxs] at h; simp at h
    | ok ps2 =>
      rw [hx, hxs] at h
      simp only [Except.ok.injEq] at h
      exact ⟨p, ps2, h.symm, rfl, rfl⟩

theorem dumpsEntries_cons (k : String) (v : PyObj) (kvs : List (String × PyObj))
    (ps : List (List Char)) (h : dumpsEntries ((k, v) :: kvs) = .ok ps) :
    ∃ cv ps2, ps = (strChars k ++ ':' :: ' ' :: cv) :: ps2 ∧ dumpsVal v = .ok cv
      ∧ dumpsEntries kvs = .ok ps2 := by
  rw [dumpsEntries] at h
  cases hx : dumpsVal v with
  | error e => rw [hx] at h; simp at h
  | ok cv =>
    cases hxs : dumpsEntries kvs with
    | error e => rw [hx, hxs] at h; simp at h
    | ok ps2 =>
      rw [hx, hxs] at h
      simp only [Except.ok.injEq] at h
      exact ⟨cv, ps2, h.symm, rfl, rfl⟩

theorem wsSkip_dumpsOk (v : PyObj) (s X : List Char) (h : dumpsVal v = .ok s) :
    wsSkip (s ++ X) = s ++ X := by
  obtain ⟨c, t, rfl, hws, _, _⟩ := dumpsVal_head v s h
  rw [List.cons_append, wsSkip_cons _ _ hws]

/-! ### Dispatch lemmas: one step of the value parser at a known head -/

theorem jsonVal_null (f : Nat) (r : List Char) :
    jsonVal (f + 1) ('n' :: 'u' :: 'l' :: 'l' :: r) = some (.pyNone, r) := rfl

theorem jsonVal_true (f : Nat) (r : List Char) :
    jsonVal (f + 1) ('t' :: 'r' :: 'u' :: 'e' :: r) = some (.pyBool true, r) := rfl

theorem jsonVal_false (f : Nat) (r : List Char) :
    jsonVal (f + 1) ('f' :: 'a' :: 'l' :: 's' :: 'e' :: r) = some (.pyBool false, r) := rfl

theorem jsonVal_quote (f : Nat) (l : List Char) :
    jsonVal (f + 1) ('"' :: l)
      = (strBody l).map (fun p => (PyObj.pyStr (String.mk p.1), p.2)) := rfl

theorem jsonVal_minus (f : Nat) (l : List Char) :
    jsonVal (f + 1) ('-' :: l)
      = (numParse ('-' :: l)).map (fun p => (PyObj.pyInt p.1, p.2)) := rfl

theorem jsonVal_bracket_empty (f : Nat) (l r2 : List Char) (h : wsSkip l = ']' :: r2) :
    jsonVal (f + 1) ('[' :: l) = some (.pyList [], r2) := by
  have h0 : jsonVal (f + 1) ('[' :: l)
      = (match wsSkip l with
         | [] => none
         | c2 :: r2 =>
           if c2 = ']' then some (PyObj.pyList [], r2)
           else (jsonItems f (c2 :: r2)).map (fun p => (PyObj.pyList p.1, p.2))) := rfl
  rw [h0, h]
  rfl

theorem jsonVal_bracket_items (f : Nat) (c : Char) (l r : List Char)
    (h : wsSkip l = c :: r) (hc : c ≠ ']') :
    jsonVal (f + 1) ('[' :: l)
      = (jsonItems f (c :: r)).map (fun p => (PyObj.pyList p.1, p.2)) := by
  have h0 : jsonVal (f + 1) ('[' :: l)
      = (match wsSkip l with
         | [] => none
         | c2 :: r2 =>
           if c2 = ']' then some (PyObj.pyList [], r2)
           else (jsonItems f (c2 :: r2)).map (fun p => (PyObj.pyList p.1, p.2))) := rfl
  rw [h0, h]
  simp [hc]

theorem jsonVal_brace_empty (f : Nat) (l r2 : List Char) (h : wsSkip l = '}' :: r2) :
    jsonVal (f + 1) ('{' :: l) = some (.pyDict [], r2) := by
  have h0 : jsonVal (f + 1) ('{' :: l)
      = (match wsSkip l with
         | [] => none
         | c2 :: r2 =>
           if c2 = '}' then some (PyObj.pyDict [], r2)
           else (jsonEntries f (c2 :: r2)).map (fun p => (PyObj.pyDict p.1, p.2))) := rfl
  rw [h0, h]
  rfl

theorem jsonVal_brace_entries (f : Nat) (c : Char) (l r : List Char)
    (h : wsSkip l = c :: r) (hc : c ≠ '}') :
    jsonVal (f + 1) ('{' :: l)
      = (jsonEntries f (c :: r)).map (fun p => (PyObj.pyDict p.1, p.2)) := by
  have h0 : jsonVal (f + 1) ('{' :: l)
      = (match wsSkip l with
         | [] => none
         | c2 :: r2 =>
           if c2 = '}' then some (PyObj.pyDict [], r2)
           else (jsonEntries f (c2 :: r2)).map (fun p => (PyObj.pyDict p.1, p.2))) := rfl
  rw [h0, h]
  simp [hc]

theorem jsonVal_digit (f : Nat) (c : Char) (l : List Char) (hd : isDig c = true) :
    jsonVal (f + 1) (c :: l)
      = (numParse (c :: l)).map (fun p => (PyObj.pyInt p.1, p.2)) := by
  obtain ⟨hn, ht, hf2, hq, hlb, hcb, hws, _, _, _⟩ := digit_not_special c hd
  have h0 : jsonVal (f + 1) (c :: l)
      = (match wsSkip (c :: l) with
         | [] => none
         | c1 :: r =>
           if c1 = 'n' then
             match r with
             | 'u' :: 'l' :: 'l' :: r2 => some (PyObj.pyNone, r2)
             | _ => none
           else if c1 = 't' then
             match r with
             | 'r' :: 'u' :: 'e' :: r2 => some (PyObj.pyBool true, r2)
             | _ => none
           else if c1 = 'f' then
             match r with
             | 'a' :: 'l' :: 's' :: 'e' :: r2 => some (PyObj.pyBool false, r2)
             | _ => none
           else if c1 = '"' then (strBody r).map (fun p => (PyObj.pyStr (String.mk p.1), p.2))
           else if c1 = '[' then
             match wsSkip r with
             | [] => none
             | c2 :: r2 =>
               if c2 = ']' then some (PyObj.pyList [], r2)
               else (jsonItems f (c2 :: r2)).map (fun p => (PyObj.pyList p.1, p.2))
           else if c1 = '{' then
             match wsSkip r with
             | [] => none
             | c2 :: r2 =>
               if c2 = '}' then some (PyObj.pyDict [], r2)
               else (jsonEntries f (c2 :: r2)).map (fun p => (PyObj.pyDict p.1, p.2))
           else if c1 = '-' ∨ isDig c1 then
             (numParse (c1 :: r)).map (fun p => (PyObj.pyInt p.1, p.2))
           else none) := rfl
  rw [h0, wsSkip_cons c l hws]
  simp [hn, ht, hf2, hq, hlb, hcb, hd]

mutual

/-- The JSON parser undoes the JSON printer on any single value, given a
delimiter-headed remainder and enough fuel. -/
theorem rtVal : ∀ (v : PyObj) (s : List Char), dumpsVal v = Except.ok s →
    ∀ (fuel : Nat) (rest : List Char), s.length < fuel → delim1 rest →
    jsonVal fuel (s ++ rest) = some (v, rest)
  | .pyNone, s, h, fuel, rest, hf, hd => by
    rw [dumpsVal] at h
    cases h
    obtain ⟨f, rfl⟩ : ∃ f, fuel = f + 1 := ⟨fuel - 1, by omega⟩
    exact jsonVal_null f rest
  | .pyBool true, s, h, fuel, rest, hf, hd => by
    rw [dumpsVal] at h
    cases h
    obtain ⟨f, rfl⟩ : ∃ f, fuel = f + 1 := ⟨fuel - 1, by omega⟩
    exact jsonVal_true f rest
  | .pyBool false, s, h, fuel, rest, hf, hd => by
    rw [dumpsVal] at h
    cases h
    obtain ⟨f, rfl⟩ : ∃ f, fuel = f + 1 := ⟨fuel - 1, by omega⟩
    exact jsonVal_false f rest
  | .pyInt i, s, h, fuel, rest, hf, hd => by
    rw [dumpsVal] at h
    cases h
    obtain ⟨f, rfl⟩ : ∃ f, fuel = f + 1 := ⟨fuel - 1, by omega⟩
    have hstop : digSpan rest = ([], rest) := digSpan_stop rest hd
    by_cases hi : i < 0
    · have harg : intChars i ++ rest = '-' :: (natChars i.natAbs ++ rest) := by
        rw [intChars, if_pos hi, List.cons_append]
      rw [harg, jsonVal_minus, ← harg, numParse_intChars i rest hstop]
      rfl
    · obtain ⟨c0, t0, h0, hd0⟩ := natChars_cons i.natAbs
      have harg : intChars i ++ rest = c0 :: (t0 ++ rest) := by
        rw [intChars, if_neg hi, h0, List.cons_append]
      rw [harg, jsonVal_digit f c0 _ hd0, ← harg, numParse_intChars i rest hstop]
      rfl
  | .pyStr s0, s, h, fuel, rest, hf, hd => by
    rw [dumpsVal] at h
    cases h
    obtain ⟨f, rfl⟩ : ∃ f, fuel = f + 1 := ⟨fuel - 1, by omega⟩
    have harg : strChars s0 ++ rest
        = '"' :: (s0.data.flatMap escChar ++ '"' :: rest) := by
      rw [strChars]
      simp [List.append_assoc]
    rw [harg, jsonVal_quote, strBody_escape]
    rfl
  | .pyList [], s, h, fuel, rest, hf, hd => by
    rw [dumpsVal] at h
    have h2 : Except.ok (['[', ']'] : List Char) = Except.ok s := h
    cases h2
    obtain ⟨f, rfl⟩ : ∃ f, fuel = f + 1 := ⟨fuel - 1, by omega⟩
    exact jsonVal_bracket_empty f (']' :: rest) rest rfl
  | .pyList (x :: xs), s, h, fuel, rest, hf, hd => by
    rw [dumpsVal] at h
    cases hx : dumpsItems (x :: xs) with
    | error e => rw [hx] at h; cases h
    | ok ps =>
      rw [hx] at h
      have h2 : Except.ok ('[' :: (joinComma ps ++ [']'])) = Except.ok s := h
      cases h2
      obtain ⟨p, ps2, rfl, hpx, hpxs⟩ := dumpsItems_cons x xs ps hx
      obtain ⟨c1, t1, hp1, hws1, hrb1, _⟩ := dumpsVal_head x p hpx
      obtain ⟨f, rfl⟩ : ∃ f, fuel = f + 1 := ⟨fuel - 1, by omega⟩
      have harg : ('[' :: (joinComma (p :: ps2) ++ [']'])) ++ rest
          = '[' :: (joinComma (p :: ps2) ++ ']' :: rest) := by
        simp [List.append_assoc]
      have hjoin : joinComma (p :: ps2) ++ ']' :: rest
          = c1 :: (t1 ++ joinTail ps2 ++ ']' :: rest) := by
        rw [joinComma, hp1]
        simp [List.append_assoc]
      have hws : wsSkip (joinComma (p :: ps2) ++ ']' :: rest)
          = c1 :: (t1 ++ joinTail ps2 ++ ']' :: rest) := by
        rw [hjoin, wsSkip_cons _ _ hws1]
      rw [harg, jsonVal_bracket_items f c1 _ _ hws hrb1, ← hjoin]
      have hfl : (joinComma (p :: ps2)).length + 1 < f := by
        simp only [List.length_cons, List.length_append] at hf
        omega
      rw [rtItems x xs (p :: ps2) hx f rest hfl]
      rfl
  | .pyDict [], s, h, fuel, rest, hf, hd => by
    rw [dumpsVal] at h
    have h2 : Except.ok (['{', '}'] : List Char) = Except.ok s := h
    cases h2
    obtain ⟨f, rfl⟩ : ∃ f, fuel = f + 1 := ⟨fuel - 1, by omega⟩
    exact jsonVal_brace_empty f ('}' :: rest) rest rfl
  | .pyDict ((k, v) :: kvs), s, h, fuel, rest, hf, hd => by
    rw [dumpsVal] at h
    cases hx : dumpsEntries ((k, v) :: kvs) with
    | error e => rw [hx] at h; cases h
    | ok ps =>
      rw [hx] at h
      have h2 : Except.ok ('{' :: (joinComma ps ++ ['}'])) = Except.ok s := h
      cases h2
      obtain ⟨cv, ps2, rfl, hpv, hpkvs⟩ := dumpsEntries_cons k v kvs ps hx
      obtain ⟨f, rfl⟩ : ∃ f, fuel = f + 1 := ⟨fuel - 1, by omega⟩
      have harg : ('{' :: (joinComma ((strChars k ++ ':' :: ' ' :: cv) :: ps2) ++ ['}'])) ++ rest
          = '{' :: (joinComma ((strChars k ++ ':' :: ' ' :: cv) :: ps2) ++ '}' :: rest) := by
        simp [List.append_assoc]
      have hjoin : joinComma ((strChars k ++ ':' :: ' ' :: cv) :: ps2) ++ '}' :: rest
          = '"' :: (k.data.flatMap escChar ++ ['"'] ++ (':' :: ' ' :: cv ++ joinTail ps2
              ++ '}' :: rest)) := by
        rw [joinComma, strChars]
        simp [List.append_assoc]
      have hws : wsSkip (joinComma ((strChars k ++ ':' :: ' ' :: cv) :: ps2) ++ '}' :: rest)
          = '"' :: (k.data.flatMap escChar ++ ['"'] ++ (':' :: ' ' :: cv ++ joinTail ps2
              ++ '}' :: rest)) := by
        rw [hjoin, wsSkip_cons _ _ (by decide)]
      rw [harg, jsonVal_brace_entries f '"' _ _ hws (by decide), ← hjoin]
      have hfl : (joinComma ((strChars k ++ ':' :: ' ' :: cv) :: ps2)).length + 1 < f := by
        simp only [List.length_cons, List.length_append] at hf
        omega
      rw [rtEntries (k, v) kvs ((strChars k ++ ':' :: ' ' :: cv) :: ps2) hx f rest hfl]
      rfl
termination_by v _ _ _ _ _ _ => sizeOf v

/-- The element-list parser undoes the printed comma-joined elements. -/
theorem rtItems : ∀ (x : PyObj) (xs : List PyObj) (ps : List (List Char)),
    dumpsItems (x :: xs) = Except.ok ps →
    ∀ (fuel : Nat) (rest : List Char), (joinComma ps).length + 1 < fuel →
    jsonItems fuel (joinComma ps ++ ']' :: rest) = some (x :: xs, rest)
  | x, [], ps, h, fuel, rest, hf => by
    obtain ⟨p, ps2, rfl, hpx, hnil⟩ := dumpsItems_cons x [] ps h
    rw [dumpsItems] at hnil
    cases hnil
    obtain ⟨f, rfl⟩ : ∃ f, fuel = f + 1 := ⟨fuel - 1, by omega⟩
    have hjc : joinComma [p] = p := by rw [joinComma, joinTail, List.append_nil]
    rw [hjc] at hf ⊢
    rw [jsonItems, rtVal x p hpx f (']' :: rest) (by omega) (by simp [delim1])]
    rfl
  | x, y :: ys, ps, h, fuel, rest, hf => by
    obtain ⟨p, ps2, rfl, hpx, htail⟩ := dumpsItems_cons x (y :: ys) ps h
    obtain ⟨q, qs2, rfl, hqy, _⟩ := dumpsItems_cons y ys ps2 htail
    obtain ⟨c2, t2, hq2, hws2, _, _⟩ := dumpsVal_head y q hqy
    obtain ⟨f, rfl⟩ : ∃ f, fuel = f + 1 := ⟨fuel - 1, by omega⟩
    have hsplit : joinComma (p :: (q :: qs2)) ++ ']' :: rest
        = p ++ (',' :: ' ' :: (joinComma (q :: qs2) ++ ']' :: rest)) := by
      simp only [joinComma, joinTail]
      simp [List.append_assoc]
    have hlen : (joinComma (p :: (q :: qs2))).length
        = p.length + 2 + (joinComma (q :: qs2)).length := by
      simp only [joinComma, joinTail, List.length_append, List.length_cons]
      omega
    rw [hsplit, jsonItems,
      rtVal x p hpx f (',' :: ' ' :: (joinComma (q :: qs2) ++ ']' :: rest)) (by omega)
        (by simp [delim1])]
    show (jsonItems f (wsSkip (joinComma (q :: qs2) ++ ']' :: rest))).map
        (fun pr => (x :: pr.1, pr.2)) = some (x :: y :: ys, rest)
    have hws : wsSkip (joinComma (q :: qs2) ++ ']' :: rest)
        = joinComma (q :: qs2) ++ ']' :: rest := by
      have hjoin : joinComma (q :: qs2) ++ ']' :: rest
          = c2 :: (t2 ++ joinTail qs2 ++ ']' :: rest) := by
        rw [joinComma, hq2]
        simp [List.append_assoc]
      rw [hjoin]
      exact wsSkip_cons _ _ hws2
    rw [hws, rtItems y ys (q :: qs2) htail f rest (by omega)]
    rfl
termination_by x xs _ _ _ _ _ => sizeOf x + sizeOf xs

/-- The member-list parser undoes the printed comma-joined members. -/
theorem rtEntries : ∀ (kv : String × PyObj) (kvs : List (String × PyObj))
    (ps : List (List Char)), dumpsEntries (kv :: kvs) = Except.ok ps →
    ∀ (fuel : Nat) (rest : List Char), (joinComma ps).length + 1 < fuel →
    jsonEntries fuel (joinComma ps ++ '}' :: rest) = some (kv :: kvs, rest)
  | (k, v), [], ps, h, fuel, rest, hf => by
    obtain ⟨cv, ps2, rfl, hpv, hnil⟩ := dumpsEntries_cons k v [] ps h
    rw [dumpsEntries] at hnil
    cases hnil
    obtain ⟨f, rfl⟩ : ∃ f, fuel = f + 1 := ⟨fuel - 1, by omega⟩
    have hjc : joinComma [strChars k ++ ':' :: ' ' :: cv] = strChars k ++ ':' :: ' ' :: cv := by
      rw [joinComma, joinTail, List.append_nil]
    rw [hjc] at hf ⊢
    have harr : (strChars k ++ ':' :: ' ' :: cv) ++ '}' :: rest
        = '"' :: (k.data.flatMap escChar ++ '"' :: (':' :: ' ' :: (cv ++ '}' :: rest))) := by
      rw [strChars]
      simp [List.append_assoc]
    rw [harr, jsonEntries]
    show (match strBody (k.data.flatMap escChar
            ++ '"' :: (':' :: ' ' :: (cv ++ '}' :: rest))) with
          | none => none
          | some (kx, r1x) =>
            match wsSkip r1x with
            | ':' :: r2x =>
              (match jsonVal f (wsSkip r2x) with
               | none => none
               | some (vx, r3x) =>
                 match wsSkip r3x with
                 | ',' :: r4 => (jsonEntries f (wsSkip r4)).map
                     (fun pr => ((String.mk kx, vx) :: pr.1, pr.2))
                 | '}' :: r4 => some ([(String.mk kx, vx)], r4)
                 | _ => none)
            | _ => none)
        = some ([(k, v)], rest)
    rw [strBody_escape]
    show (match jsonVal f (wsSkip (' ' :: (cv ++ '}' :: rest))) with
          | none => none
          | some (vx, r3x) =>
            match wsSkip r3x with
            | ',' :: r4 => (jsonEntries f (wsSkip r4)).map
                (fun pr => ((k, vx) :: pr.1, pr.2))
            | '}' :: r4 => some ([(k, vx)], r4)
            | _ => none)
        = some ([(k, v)], rest)
    rw [wsSkip_space, wsSkip_dumpsOk v cv _ hpv,
      rtVal v cv hpv f ('}' :: rest)
        (by simp only [List.length_append, List.length_cons] at hf; omega)
        (by simp [delim1])]
    rfl
  | (k, v), (k2, v2) :: kvs2, ps, h, fuel, rest, hf => by
    obtain ⟨cv, ps2, rfl, hpv, htail⟩ := dumpsEntries_cons k v ((k2, v2) :: kvs2) ps h
    obtain ⟨cv2, qs2, rfl, hpv2, _⟩ := dumpsEntries_cons k2 v2 kvs2 ps2 htail
    obtain ⟨f, rfl⟩ : ∃ f, fuel = f + 1 := ⟨fuel - 1, by omega⟩
    have hsplit : joinComma ((strChars k ++ ':' :: ' ' :: cv)
          :: ((strChars k2 ++ ':' :: ' ' :: cv2) :: qs2)) ++ '}' :: rest
        = '"' :: (k.data.flatMap escChar ++ '"' :: (':' :: ' ' :: (cv
          ++ (',' :: ' ' :: (joinComma ((strChars k2 ++ ':' :: ' ' :: cv2) :: qs2)
            ++ '}' :: rest))))) := by
      simp only [joinComma, joinTail, strChars]
      simp [List.append_assoc]
    have hlen : (joinComma ((strChars k ++ ':' :: ' ' :: cv)
          :: ((strChars k2 ++ ':' :: ' ' :: cv2) :: qs2))).length
        = (strChars k).length + cv.length + 4
          + (joinComma ((strChars k2 ++ ':' :: ' ' :: cv2) :: qs2)).length := by
      simp only [joinComma, joinTail, List.length_append, List.length_cons]
      omega
    rw [hsplit, jsonEntries]
    show (match strBody (k.data.flatMap escChar ++ '"' :: (':' :: ' ' :: (cv
            ++ (',' :: ' ' :: (joinComma ((strChars k2 ++ ':' :: ' ' :: cv2) :: qs2)
              ++ '}' :: rest))))) with
          | none => none
          | some (kx, r1x) =>
            match wsSkip r1x with
            | ':' :: r2x =>
              (match jsonVal f (wsSkip r2x) with
               | none => none
               | some (vx, r3x) =>
                 match wsSkip r3x with
                 | ',' :: r4 => (jsonEntries f (wsSkip r4)).map
                     (fun pr => ((String.mk kx, vx) :: pr.1, pr.2))
                 | '}' :: r4 => some ([(String.mk kx, vx)], r4)
                 | _ => none)
            | _ => none)
        = some ((k, v) :: (k2, v2) :: kvs2, rest)
    rw [strBody_escape]
    show (match jsonVal f (wsSkip (' ' :: (cv
            ++ (',' :: ' ' :: (joinComma ((strChars k2 ++ ':' :: ' ' :: cv2) :: qs2)
              ++ '}' :: rest))))) with
          | none => none
          | some (vx, r3x) =>
            match wsSkip r3x with
            | ',' :: r4 => (jsonEntries f (wsSkip r4)).map
                (fun pr => ((k, vx) :: pr.1, pr.2))
            | '}' :: r4 => some ([(k, vx)], r4)
            | _ => none)
        = some ((k, v) :: (k2, v2) :: kvs2, rest)
    rw [wsSkip_space, wsSkip_dumpsOk v cv _ hpv,
      rtVal v cv hpv f (',' :: ' ' :: (joinComma ((strChars k2 ++ ':' :: ' ' :: cv2) :: qs2)
          ++ '}' :: rest)) (by omega) (by simp [delim1])]
    show (jsonEntries f (wsSkip (joinComma ((strChars k2 ++ ':' :: ' ' :: cv2) :: qs2)
            ++ '}' :: rest))).map (fun pr => ((k, v) :: pr.1, pr.2))
        = some ((k, v) :: (k2, v2) :: kvs2, rest)
    have hws : wsSkip (joinComma ((strChars k2 ++ ':' :: ' ' :: cv2) :: qs2) ++ '}' :: rest)
        = joinComma ((strChars k2 ++ ':' :: ' ' :: cv2) :: qs2) ++ '}' :: rest := by
      have hjoin : joinComma ((strChars k2 ++ ':' :: ' ' :: cv2) :: qs2) ++ '}' :: rest
          = '"' :: (k2.data.flatMap escChar ++ ['"'] ++ (':' :: ' ' :: cv2 ++ joinTail qs2
              ++ '}' :: rest)) := by
        rw [joinComma, strChars]
        simp [List.append_assoc]
      rw [hjoin]
      exact wsSkip_cons _ _ (by decide)
    rw [hws, rtEntries (k2, v2) kvs2 ((strChars k2 ++ ':' :: ' ' :: cv2) :: qs2) htail f rest
      (by omega)]
    rfl
termination_by kv kvs _ _ _ _ _ => sizeOf kv + sizeOf kvs

end

/-- The JSON round trip as the router relies on it: `loads` undoes a
successful `dumps`, structurally, for every serializable value. -/
theorem loads_dumps (m : PyObj) (s : List Char) (h : dumps m = .ok s) :
    loads s = .ok m := by
  rw [dumps] at h
  have hv := rtVal m s h (s.length + 1) [] (by omega) (by simp [delim1])
  rw [List.append_nil] at hv
  rw [loads, hv]
  simp [wsSkip]

/-! ## The Router, modelling `src/uspech/zeromq/router.py` -/

/-- A recipient value as Python permits it: a text string or a byte string. -/
inductive StrOrBytes where
  | str (s : String)
  | bytes (b : List Nat)

/-- The Router-owned mutable state: the socket identity (set once during
`__init__` via `setsockopt_string`) and the stored default recipient.  The
socket handle itself belongs to the external transport. -/
structure Router where
  identity : String
  default_recipient : Option (List Nat)

/-- UTF-8 wire form of a router identity, as `setsockopt_string` installs it
and as the transport presents it in the sender frame of routed messages. -/
def wireIdentity (r : Router) : List Nat :=
  encodeUtf8 r.identity.data

/-- Model of `uuid4().hex`: the 128-bit value rendered as exactly 32 lowercase
hexadecimal digits. -/
def uuid4Hex (n : Nat) : List Char :=
  (List.range 32).map (fun i => hexChar (n / 16 ^ (31 - i) % 16))

/-- Model of `Router.__init__` (router.py lines 61 to 91).  The identity is
the user-supplied string, or `uuid4().hex` of a freshly drawn random value
(the explicit `uuidBits` parameter); it is set on the socket exactly once via
`setsockopt_string(zmq.IDENTITY, ...)`.  A textual `default_recipient` is
stored UTF-8-encoded, a bytes one unchanged, an absent one as `None`.  The
transport rejects a zero-length routing id (`zmq_setsockopt` documents EINVAL
for an empty `ZMQ_IDENTITY`), so construction fails on an empty explicit
identity; the error models the raised `ZMQError`. -/
def mkRouter (identity : Option String) (default_recipient : Option StrOrBytes)
    (uuidBits : Nat) : Except String Router :=
  let ident := match identity with
    | some i => i
    | none => String.mk (uuid4Hex (uuidBits % 2 ^ 128))
  if ident = "" then .error "Invalid argument"
  else
    .ok { identity := ident
          default_recipient := match default_recipient with
            | none => none
            | some (.str s) => some (encodeUtf8 s.data)
            | some (.bytes b) => some b }

/-- Errors `send` raises before any transport I/O: the `TypeError` for a
missing recipient (router.py line 110; the specification names it
AddressError) and the `TypeError` that `json.dumps` raises on a value it
cannot represent (the specification names it EncodingError). -/
inductive SendError where
  | noRecipient (msg : String)
  | notSerializable (msg : String)

/-- Model of `Router.send` (router.py lines 103 to 126): resolve the
recipient (explicit text UTF-8-encoded, explicit bytes as-is, otherwise the
stored default, and a `TypeError` when neither exists), JSON-encode the
message to UTF-8 bytes, render `int(time())` (the `now` parameter) as ASCII
decimal bytes, and hand `[recipient, json, now]` to `socket.send_multipart`.
The returned frame list is that single multipart transport call; an `error`
is raised to the caller before the transport is touched. -/
def Router.send (r : Router) (message : PyObj) (recipient : Option StrOrBytes)
    (now : Int) : Except SendError (List (List Nat)) :=
  let resolved : Except SendError (List Nat) :=
    match recipient with
    | none =>
      match r.default_recipient with
      | none => .error (.noRecipient "no recipient specified")
      | some d => .ok d
    | some (.str s) => .ok (encodeUtf8 s.data)
    | some (.bytes b) => .ok b
  match resolved with
  | .error e => .error e
  | .ok recip =>
    match dumps message with
    | .error msg => .error (.notSerializable msg)
    | .ok json => .ok [recip, encodeUtf8 json, encodeUtf8 (intChars now)]

/-- The multipart frame lists handed to the transport by one `send` call:
exactly one on success, none when the call raises first. -/
def sendCalls (r : Router) (message : PyObj) (recipient : Option StrOrBytes)
    (now : Int) : List (List (List Nat)) :=
  match r.send message recipient now with
  | .ok frames => [frames]
  | .error _ => []

/-- Model of `Router.connect` (router.py lines 93 to 96):
`socket.connect(address)` on the transport, then `return self`; no Router
field is assigned. -/
def Router.connect (r : Router) (_address : String) : Router := r

/-- Model of `Router.bind` (router.py lines 98 to 101):
`socket.bind(address)` on the transport, then `return self`; no Router field
is assigned. -/
def Router.bind (r : Router) (_address : String) : Router := r

/-- The operations callable on a constructed Router. -/
inductive RouterOp where
  | connect (address : String)
  | bind (address : String)
  | send (message : PyObj) (recipient : Option StrOrBytes) (now : Int)
  | recvNext

/-- The Router state after one operation: `connect` and `bind` return `self`
unchanged, and neither `send` (router.py lines 103 to 126) nor `__anext__`
(router.py lines 132 to 142) assigns any Router attribute. -/
def applyOp (r : Router) : RouterOp → Router
  | .connect a => r.connect a
  | .bind a => r.bind a
  | .send _ _ _ => r
  | .recvNext => r

/-- Errors one iteration of `__anext__` can raise to the consumer: a
`ValueError` from unpacking an envelope without exactly three frames, a
`ValueError` from `int(t)` on a malformed timestamp frame, a
`UnicodeDecodeError` from `data.decode('utf-8')`, or a `JSONDecodeError`
from `loads`. -/
inductive RecvError where
  | frameCountError
  | timestampError
  | unicodeError
  | jsonError (msg : String)

/-- Result of the `__anext__` loop body on one delivered envelope. -/
inductive StepResult where
  | drop
  | yield (message : PyObj) (sender : List Nat)
  | raise (e : RecvError)

/-- One iteration of the `while True` body of `__anext__` (router.py lines
137 to 142): unpack `sender, data, t`, parse the timestamp with `int`, drop
the envelope and continue when `int(t) + 15 < time()` (`now` is this
iteration's `time()` reading, at whole-second granularity), otherwise UTF-8-
and JSON-decode the payload and yield `(message, sender)`. -/
def recvStep (now : Int) (frames : List (List Nat)) : StepResult :=
  match frames with
  | [sender, data, t] =>
    match intOfBytes t with
    | none => .raise .timestampError
    | some ts =>
      if ts + 15 < now then .drop
      else
        match decodeUtf8 data with
        | none => .raise .unicodeError
        | some chars =>
          match loads chars with
          | .error msg => .raise (.jsonError msg)
          | .ok m => .yield m sender
  | _ => .raise .frameCountError

/-- The queue of envelopes the transport will deliver, in delivery order,
each paired with the `time()` reading of the iteration that receives it. -/
abbrev RecvQueue := List (Int × List (List Nat))

/-- Outcome of one `__anext__` call. -/
inductive RecvOutcome where
  | yielded (message : PyObj) (sender : List Nat) (rest : RecvQueue)
  | suspended
  | raised (e : RecvError)

/-- Model of `__anext__` (router.py lines 132 to 142): run the receive loop
over the queued envelopes; dropped envelopes make the loop continue, the
first accepted message is returned with the unconsumed remainder of the
queue, and an exhausted queue leaves the coroutine suspended in
`recv_multipart` (the loop never terminates on staleness alone). -/
def anext : RecvQueue → RecvOutcome
  | [] => .suspended
  | (now, frames) :: rest =>
    match recvStep now frames with
    | .drop => anext rest
    | .yield m sender => .yielded m sender rest
    | .raise e => .raised e

/-- Iterated consumption (the `async for` protocol over the Router): every
message the loop yields from a delivery queue, in order, or the first error
it raises. -/
def consume : RecvQueue → Except RecvError (List (PyObj × List Nat))
  | [] => .ok []
  | (now, frames) :: rest =>
    match recvStep now frames with
    | .drop => consume rest
    | .yield m sender => (consume rest).map (fun l => (m, sender) :: l)
    | .raise e => .error e

/-- The accepted `(message, sender)` pair an envelope contributes, if any. -/
def stepYield (e : Int × List (List Nat)) : Option (PyObj × List Nat) :=
  match recvStep e.1 e.2 with
  | .yield m sender => some (m, sender)
  | _ => none

/-- The zmq ROUTER-to-ROUTER delivery step the module relies on: the
transport routes a multipart message by its first (recipient) frame and
replaces that frame with the sending peer's identity when delivering. -/
def routeFrames (senderIdentity : List Nat) : List (List Nat) → List (List Nat)
  | [] => []
  | _recipient :: rest => senderIdentity :: rest

/-! ## Send inversion -/

theorem send_ok_shape (r : Router) (m : PyObj) (recipient : Option StrOrBytes)
    (now : Int) (frames : List (List Nat)) (h : r.send m recipient now = .ok frames) :
    ∃ recip js, dumps m = .ok js
      ∧ frames = [recip, encodeUtf8 js, encodeUtf8 (intChars now)]
      ∧ ((∃ s0, recipient = some (.str s0) ∧ recip = encodeUtf8 s0.data)
        ∨ (∃ b, recipient = some (.bytes b) ∧ recip = b)
        ∨ (recipient = none ∧ r.default_recipient = some recip)) := by
  cases recipient with
  | none =>
    cases hdr : r.default_recipient with
    | none => simp [Router.send, hdr] at h
    | some d =>
      cases hdm : dumps m with
      | error e => simp [Router.send, hdr, hdm] at h
      | ok js =>
        simp [Router.send, hdr, hdm] at h
        exact ⟨d, js, rfl, h.symm, Or.inr (Or.inr ⟨rfl, rfl⟩)⟩
  | some sb =>
    cases sb with
    | str s0 =>
      cases hdm : dumps m with
      | error e => simp [Router.send, hdm] at h
      | ok js =>
        simp [Router.send, hdm] at h
        exact ⟨encodeUtf8 s0.data, js, rfl, h.symm, Or.inl ⟨s0, rfl, rfl⟩⟩
    | bytes b =>
      cases hdm : dumps m with
      | error e => simp [Router.send, hdm] at h
      | ok js =>
        simp [Router.send, hdm] at h
        exact ⟨b, js, rfl, h.symm, Or.inr (Or.inl ⟨b, rfl, rfl⟩)⟩

theorem exceptMap_ok {α β ε : Type} (f : α → β) (a : α) :
    Except.map f (Except.ok a : Except ε α) = .ok (f a) := rfl

/-! ## The claims -/

/-- C1: for an inbound 3-frame envelope whose timestamp frame parses to the
integer `t`, one `__anext__` call discards the envelope and keeps receiving
exactly when the age `now - t` exceeds 15 seconds (silently: the outcome is
that of the rest of the queue, no error and no termination), and yields the
decoded `(message, sender)` pair otherwise; the loop-body result is `drop`
if and only if the age exceeds 15. -/
theorem C1_staleness_filter (s d tb : List Nat) (t now : Int) (rest : RecvQueue)
    (ht : intOfBytes tb = some t) :
    (now - t > 15 → anext ((now, [s, d, tb]) :: rest) = anext rest)
    ∧ (¬(now - t > 15) → ∀ (m : PyObj) (cs : List Char), decodeUtf8 d = some cs →
        loads cs = .ok m → anext ((now, [s, d, tb]) :: rest) = .yielded m s rest)
    ∧ (recvStep now [s, d, tb] = .drop ↔ now - t > 15) := by
  have hstep : recvStep now [s, d, tb]
      = (if t + 15 < now then StepResult.drop
         else match decodeUtf8 d with
           | none => .raise .unicodeError
           | some chars => match loads chars with
             | .error msg => .raise (.jsonError msg)
             | .ok m => .yield m s) := by
    simp only [recvStep, ht]
  refine ⟨?_, ?_, ?_⟩
  · intro hstale
    rw [anext, hstep, if_pos (by omega)]
  · intro hfresh m cs hdec hld
    have hstep2 : recvStep now [s, d, tb] = .yield m s := by
      rw [hstep, if_neg (by omega), hdec]
      show (match loads cs with
            | Except.error msg => StepResult.raise (RecvError.jsonError msg)
            | Except.ok m2 => StepResult.yield m2 s) = StepResult.yield m s
      rw [hld]
    rw [anext, hstep2]
  · rw [hstep]
    by_cases hc : t + 15 < now
    · rw [if_pos hc]
      exact ⟨fun _ => by omega, fun _ => rfl⟩
    · rw [if_neg hc]
      constructor
      · intro hdrop
        exfalso
        rcases hdec : decodeUtf8 d with _ | cs
        · rw [hdec] at hdrop; cases hdrop
        · rw [hdec] at hdrop
          have hdrop2 : (match loads cs with
              | Except.error msg => StepResult.raise (RecvError.jsonError msg)
              | Except.ok m2 => StepResult.yield m2 s) = StepResult.drop := hdrop
          rcases hld : loads cs with msg | m
          · rw [hld] at hdrop2; cases hdrop2
          · rw [hld] at hdrop2; cases hdrop2
      · intro hgt
        exact absurd (by omega : t + 15 < now) hc

theorem C1_staleness_filter_witness :
    anext [((100 : Int), [[1], [49], [56, 52]])] = anext []
    ∧ anext [((100 : Int), [[2], [49], [56, 54]])]
        = .yielded (.pyInt 1) [2] [] :=
  ⟨(C1_staleness_filter [1] [49] [56, 52] 84 100 [] rfl).1 (by decide),
   (C1_staleness_filter [2] [49] [56, 54] 86 100 [] rfl).2.1 (by decide)
     (.pyInt 1) ['1'] rfl rfl⟩

/-- C2: a message sent within the staleness window round-trips: when `send`
succeeds with frame list `frames` at time `tSend`, and the transport routes
them (replacing the recipient frame by the sender's identity frame), a
receive at a time at most 15 seconds later yields exactly the original
message paired with the sending router's configured identity. -/
theorem C2_send_receive_roundtrip (r : Router) (m : PyObj)
    (recipient : Option StrOrBytes) (tSend tRecv : Int) (frames : List (List Nat))
    (hsend : r.send m recipient tSend = .ok frames)
    (hwin : tRecv - tSend ≤ 15) :
    anext [(tRecv, routeFrames (wireIdentity r) frames)]
      = .yielded m (wireIdentity r) [] := by
  obtain ⟨recip, js, hdm, rfl, _⟩ := send_ok_shape r m recipient tSend frames hsend
  rw [show routeFrames (wireIdentity r)
      [recip, encodeUtf8 js, encodeUtf8 (intChars tSend)]
      = [wireIdentity r, encodeUtf8 js, encodeUtf8 (intChars tSend)] from rfl]
  have hstep : recvStep tRecv [wireIdentity r, encodeUtf8 js, encodeUtf8 (intChars tSend)]
      = .yield m (wireIdentity r) := by
    simp only [recvStep, intOfBytes_intChars]
    rw [if_neg (by omega), decodeUtf8_encodeUtf8]
    show (match loads js with
          | Except.error msg => StepResult.raise (RecvError.jsonError msg)
          | Except.ok m2 => StepResult.yield m2 (wireIdentity r))
        = StepResult.yield m (wireIdentity r)
    rw [loads_dumps m js hdm]
  rw [anext, hstep]

theorem C2_send_receive_roundtrip_witness :
    anext [((110 : Int), routeFrames (wireIdentity ⟨"alice", none⟩)
        [encodeUtf8 "bob".data, encodeUtf8 "[1]".data, encodeUtf8 "100".data])]
      = .yielded (.pyList [.pyInt 1]) (wireIdentity ⟨"alice", none⟩) [] :=
  C2_send_receive_roundtrip ⟨"alice", none⟩ (.pyList [.pyInt 1])
    (some (.str "bob")) 100 110
    [encodeUtf8 "bob".data, encodeUtf8 "[1]".data, encodeUtf8 "100".data]
    rfl (by decide)

/-- C3: every successful `send` hands the transport exactly one multipart
message of exactly three frames, in the order recipient bytes, UTF-8 JSON
encoding of the message, ASCII decimal rendering of the integer Unix time of
the call, and nothing else (the transport call list is that one call). -/
theorem C3_wire_envelope (r : Router) (m : PyObj) (recipient : Option StrOrBytes)
    (now : Int) (frames : List (List Nat))
    (h : r.send m recipient now = .ok frames) :
    ∃ recip js, dumps m = .ok js
      ∧ frames = [recip, encodeUtf8 js, encodeUtf8 (intChars now)]
      ∧ sendCalls r m recipient now = [frames]
      ∧ ((∃ s0, recipient = some (.str s0) ∧ recip = encodeUtf8 s0.data)
        ∨ (∃ b, recipient = some (.bytes b) ∧ recip = b)
        ∨ (recipient = none ∧ r.default_recipient = some recip)) := by
  obtain ⟨recip, js, hdm, hfr, hres⟩ := send_ok_shape r m recipient now frames h
  exact ⟨recip, js, hdm, hfr, by rw [sendCalls, h], hres⟩

theorem C3_wire_envelope_witness :
    ∃ recip js, dumps (.pyList [.pyInt 2]) = .ok js
      ∧ [encodeUtf8 "bob".data, encodeUtf8 "[2]".data, encodeUtf8 "7".data]
          = [recip, encodeUtf8 js, encodeUtf8 (intChars 7)]
      ∧ sendCalls ⟨"alice", none⟩ (.pyList [.pyInt 2]) (some (.str "bob")) 7
          = [[encodeUtf8 "bob".data, encodeUtf8 "[2]".data, encodeUtf8 "7".data]]
      ∧ ((∃ s0, (some (StrOrBytes.str "bob") : Option StrOrBytes)
            = some (.str s0) ∧ recip = encodeUtf8 s0.data)
        ∨ (∃ b, (some (StrOrBytes.str "bob") : Option StrOrBytes)
            = some (.bytes b) ∧ recip = b)
        ∨ ((some (StrOrBytes.str "bob") : Option StrOrBytes) = none
            ∧ (Router.mk "alice" none).default_recipient = some recip)) :=
  C3_wire_envelope ⟨"alice", none⟩ (.pyList [.pyInt 2]) (some (.str "bob")) 7
    [encodeUtf8 "bob".data, encodeUtf8 "[2]".data, encodeUtf8 "7".data] rfl

/-- C4: `send` with no explicit recipient on a router with no default
recipient fails, for every message, with the no-recipient error carrying the
message "no recipient specified", and the transport send primitive is never
invoked (the transport call list of the call is empty). -/
theorem C4_no_recipient_error (r : Router) (m : PyObj) (now : Int)
    (h : r.default_recipient = none) :
    r.send m none now = .error (.noRecipient "no recipient specified")
    ∧ sendCalls r m none now = [] := by
  have hs : r.send m none now = .error (.noRecipient "no recipient specified") := by
    simp [Router.send, h]
  exact ⟨hs, by rw [sendCalls, hs]⟩

theorem C4_no_recipient_error_witness :
    (Router.mk "alice" none).send (.pyObject "set") none 3
        = .error (.noRecipient "no recipient specified")
    ∧ sendCalls ⟨"alice", none⟩ (.pyObject "set") none 3 = [] :=
  C4_no_recipient_error ⟨"alice", none⟩ (.pyObject "set") 3 rfl

/-- C5: an inbound envelope whose timestamp frame does not parse as an
integer makes the consumption request fail with the propagated parse error
(both for one `__anext__` call and for iterated consumption, so it is not
silently dropped), and a non-stale envelope whose payload is not valid UTF-8
or not valid JSON fails with the propagated decode error. -/
theorem C5_malformed_envelope_raises (s d tb : List Nat) (now : Int) (rest : RecvQueue) :
    (intOfBytes tb = none →
      anext ((now, [s, d, tb]) :: rest) = .raised .timestampError
      ∧ consume ((now, [s, d, tb]) :: rest) = .error .timestampError)
    ∧ (∀ t : Int, intOfBytes tb = some t → ¬(t + 15 < now) → decodeUtf8 d = none →
        anext ((now, [s, d, tb]) :: rest) = .raised .unicodeError
        ∧ consume ((now, [s, d, tb]) :: rest) = .error .unicodeError)
    ∧ (∀ (t : Int) (cs : List Char) (msg : String), intOfBytes tb = some t →
        ¬(t + 15 < now) → decodeUtf8 d = some cs → loads cs = .error msg →
        anext ((now, [s, d, tb]) :: rest) = .raised (.jsonError msg)
        ∧ consume ((now, [s, d, tb]) :: rest) = .error (.jsonError msg)) := by
  refine ⟨?_, ?_, ?_⟩
  · intro ht
    have hstep : recvStep now [s, d, tb] = .raise .timestampError := by
      simp only [recvStep, ht]
    exact ⟨by rw [anext, hstep], by rw [consume, hstep]⟩
  · intro t ht hfresh hdec
    have hstep : recvStep now [s, d, tb] = .raise .unicodeError := by
      simp only [recvStep, ht]
      rw [if_neg hfresh, hdec]
    exact ⟨by rw [anext, hstep], by rw [consume, hstep]⟩
  · intro t cs msg ht hfresh hdec hld
    have hstep : recvStep now [s, d, tb] = .raise (.jsonError msg) := by
      simp only [recvStep, ht]
      rw [if_neg hfresh, hdec]
      show (match loads cs with
            | Except.error msg2 => StepResult.raise (RecvError.jsonError msg2)
            | Except.ok m2 => StepResult.yield m2 s)
          = StepResult.raise (RecvError.jsonError msg)
      rw [hld]
    exact ⟨by rw [anext, hstep], by rw [consume, hstep]⟩

theorem C5_malformed_envelope_raises_witness :
    (anext [((100 : Int), [[1], [49], [120]])] = .raised .timestampError
      ∧ consume [((100 : Int), [[1], [49], [120]])] = .error .timestampError)
    ∧ (anext [((100 : Int), [[1], [255], [57, 48]])] = .raised .unicodeError
      ∧ consume [((100 : Int), [[1], [255], [57, 48]])] = .error .unicodeError)
    ∧ (anext [((100 : Int), [[1], [64], [57, 48]])]
          = .raised (.jsonError "Expecting value")
      ∧ consume [((100 : Int), [[1], [64], [57, 48]])]
          = .error (.jsonError "Expecting value")) :=
  ⟨(C5_malformed_envelope_raises [1] [49] [120] 100 []).1 rfl,
   (C5_malformed_envelope_raises [1] [255] [57, 48] 100 []).2.1 90 rfl (by decide) rfl,
   (C5_malformed_envelope_raises [1] [64] [57, 48] 100 []).2.2 90 ['@']
     "Expecting value" rfl (by decide) rfl rfl⟩

/-- C6: over any delivery queue in which no envelope raises (each is either
accepted or dropped as stale), iterated consumption succeeds and yields
exactly the accepted messages in the transport's delivery order: the result
is the order-preserving filter of the queue, so dropping stale envelopes
keeps the relative order of all remaining messages and applies no
reordering. -/
theorem C6_order_preservation (q : RecvQueue)
    (h : ∀ e ∈ q, ∀ err : RecvError, recvStep e.1 e.2 ≠ .raise err) :
    consume q = .ok (q.filterMap stepYield) := by
  induction q with
  | nil => rfl
  | cons e rest ih =>
    obtain ⟨now, frames⟩ := e
    have htl : ∀ e2 ∈ rest, ∀ err : RecvError, recvStep e2.1 e2.2 ≠ .raise err :=
      fun e2 he2 => h e2 (by simp [he2])
    cases hstep : recvStep now frames with
    | drop =>
      rw [consume, hstep, ih htl]
      simp [List.filterMap_cons, stepYield, hstep]
    | yield m sender =>
      rw [consume, hstep, ih htl]
      simp [List.filterMap_cons, stepYield, hstep, exceptMap_ok]
    | raise err => exact absurd hstep (h (now, frames) (by simp) err)

theorem C6_order_preservation_witness :
    consume [((100 : Int), [[1], [49], [57, 57]]), ((100 : Int), [[2], [50], [56, 48]]),
        ((100 : Int), [[3], [51], [57, 56]])]
      = .ok ([((100 : Int), [[1], [49], [57, 57]]), ((100 : Int), [[2], [50], [56, 48]]),
          ((100 : Int), [[3], [51], [57, 56]])].filterMap stepYield) := by
  apply C6_order_preservation
  intro e he err
  simp only [List.mem_cons, List.not_mem_nil, or_false] at he
  rcases he with rfl | rfl | rfl
  · intro hc
    rw [show recvStep (100 : Int) [[1], [49], [57, 57]]
        = .yield (.pyInt 1) [1] from rfl] at hc
    simp at hc
  · intro hc
    rw [show recvStep (100 : Int) [[2], [50], [56, 48]] = StepResult.drop from rfl] at hc
    simp at hc
  · intro hc
    rw [show recvStep (100 : Int) [[3], [51], [57, 56]]
        = .yield (.pyInt 3) [3] from rfl] at hc
    simp at hc

/-- C7: for every message the JSON codec cannot represent (any `dumps`
failure), `send` with an explicit recipient fails with the serialization
error propagated synchronously, and the transport send primitive is never
invoked for that call. -/
theorem C7_encoding_error (r : Router) (m : PyObj) (rc : StrOrBytes) (now : Int)
    (msg : String) (h : dumps m = .error msg) :
    r.send m (some rc) now = .error (.notSerializable msg)
    ∧ sendCalls r m (some rc) now = [] := by
  have hs : r.send m (some rc) now = .error (.notSerializable msg) := by
    cases rc with
    | str s0 => simp [Router.send, h]
    | bytes b => simp [Router.send, h]
  exact ⟨hs, by rw [sendCalls, hs]⟩

theorem C7_encoding_error_witness :
    (Router.mk "alice" none).send (.pyObject "set") (some (.str "bob")) 3
        = .error (.notSerializable "Object of type set is not JSON serializable")
    ∧ sendCalls ⟨"alice", none⟩ (.pyObject "set") (some (.str "bob")) 3 = [] :=
  C7_encoding_error ⟨"alice", none⟩ (.pyObject "set") (.str "bob") 3
    "Object of type set is not JSON serializable" rfl

/-- C8: recipient resolution is deterministic and normalizing: at
construction a textual default recipient is stored as its UTF-8 encoding and
a bytes one unchanged; at send time an explicit textual recipient is sent
UTF-8-encoded, an explicit bytes recipient as-is, and an omitted recipient
resolves to the stored default. -/
theorem C8_recipient_resolution (ident : Option String) (u : Nat) :
    (∀ (s0 : String) (r : Router), mkRouter ident (some (.str s0)) u = .ok r →
        r.default_recipient = some (encodeUtf8 s0.data))
    ∧ (∀ (b : List Nat) (r : Router), mkRouter ident (some (.bytes b)) u = .ok r →
        r.default_recipient = some b)
    ∧ (∀ (r : Router) (m : PyObj) (js : List Char) (s0 : String) (now : Int),
        dumps m = .ok js →
        r.send m (some (.str s0)) now
          = .ok [encodeUtf8 s0.data, encodeUtf8 js, encodeUtf8 (intChars now)])
    ∧ (∀ (r : Router) (m : PyObj) (js : List Char) (b : List Nat) (now : Int),
        dumps m = .ok js →
        r.send m (some (.bytes b)) now = .ok [b, encodeUtf8 js, encodeUtf8 (intChars now)])
    ∧ (∀ (r : Router) (m : PyObj) (js : List Char) (d : List Nat) (now : Int),
        dumps m = .ok js → r.default_recipient = some d →
        r.send m none now = .ok [d, encodeUtf8 js, encodeUtf8 (intChars now)]) := by
  refine ⟨?_, ?_, ?_, ?_, ?_⟩
  · intro s0 r hr
    simp only [mkRouter.eq_def] at hr
    split at hr
    · cases hr
    · cases hr
      rfl
  · intro b r hr
    simp only [mkRouter.eq_def] at hr
    split at hr
    · cases hr
    · cases hr
      rfl
  · intro r m js s0 now hdm
    simp [Router.send, hdm]
  · intro r m js b now hdm
    simp [Router.send, hdm]
  · intro r m js d now hdm hdr
    simp [Router.send, hdm, hdr]

theorem C8_recipient_resolution_witness :
    ((Router.mk "x" (some (encodeUtf8 "srv".data))).default_recipient
        = some (encodeUtf8 "srv".data))
    ∧ ((Router.mk "x" (some [7, 8])).default_recipient = some [7, 8])
    ∧ ((Router.mk "x" none).send (.pyInt 5) (some (.str "bob")) 9
        = .ok [encodeUtf8 "bob".data, encodeUtf8 "5".data, encodeUtf8 "9".data])
    ∧ ((Router.mk "x" none).send (.pyInt 5) (some (.bytes [7])) 9
        = .ok [[7], encodeUtf8 "5".data, encodeUtf8 "9".data])
    ∧ ((Router.mk "x" (some [7, 8])).send (.pyInt 5) none 9
        = .ok [[7, 8], encodeUtf8 "5".data, encodeUtf8 "9".data]) := by
  obtain ⟨h1, h2, h3, h4, h5⟩ := C8_recipient_resolution (some "x") 0
  refine ⟨h1 "srv" _ rfl, h2 [7, 8] _ rfl, ?_, ?_, ?_⟩
  · rw [h3 ⟨"x", none⟩ (.pyInt 5) ['5'] "bob" 9 rfl]
    rfl
  · rw [h4 ⟨"x", none⟩ (.pyInt 5) ['5'] [7] 9 rfl]
    rfl
  · rw [h5 ⟨"x", some [7, 8]⟩ (.pyInt 5) ['5'] [7, 8] 9 rfl rfl]
    rfl

/-- C9: the identity is fixed at construction and never reassigned by any
later operation, and it is never empty: an explicit identity is used exactly
as given, and an omitted one becomes the hex rendering of the generated
128-bit random value, 32 hex digits long. -/
theorem C9_identity_invariant (ident : Option String) (dr : Option StrOrBytes)
    (u : Nat) (r : Router) (h : mkRouter ident dr u = .ok r) :
    r.identity ≠ ""
    ∧ (∀ i, ident = some i → r.identity = i)
    ∧ (ident = none → r.identity = String.mk (uuid4Hex (u % 2 ^ 128))
        ∧ r.identity.data.length = 32)
    ∧ (∀ ops : List RouterOp, (ops.foldl applyOp r).identity = r.identity) := by
  have hop : ∀ (r2 : Router) (ops : List RouterOp),
      (ops.foldl applyOp r2).identity = r2.identity := by
    intro r2 ops
    induction ops generalizing r2 with
    | nil => rfl
    | cons op rest ih =>
      rw [List.foldl_cons, ih (applyOp r2 op)]
      cases op <;> rfl
  simp only [mkRouter.eq_def] at h
  split at h
  · cases h
  · rename_i hne
    cases h
    cases ident with
    | none =>
      refine ⟨hne, ?_, ?_, hop _⟩
      · intro i hi
        cases hi
      · intro _
        refine ⟨rfl, ?_⟩
        show (uuid4Hex (u % 2 ^ 128)).length = 32
        rw [uuid4Hex]
        simp
    | some i0 =>
      refine ⟨hne, ?_, ?_, hop _⟩
      · intro i hi
        cases hi
        rfl
      · intro hcontra
        cases hcontra

theorem C9_identity_invariant_witness :
    (Router.mk "srv" none).identity ≠ ""
    ∧ (∀ i, (some "srv" : Option String) = some i → (Router.mk "srv" none).identity = i)
    ∧ ((some "srv" : Option String) = none →
        (Router.mk "srv" none).identity = String.mk (uuid4Hex (5 % 2 ^ 128))
        ∧ (Router.mk "srv" none).identity.data.length = 32)
    ∧ (∀ ops : List RouterOp,
        (ops.foldl applyOp (Router.mk "srv" none)).identity
          = (Router.mk "srv" none).identity) :=
  C9_identity_invariant (some "srv") none 5 ⟨"srv", none⟩ rfl

/-- C10: the staleness check runs before any payload decoding: an envelope
whose timestamp parses to an age over 15 seconds is dropped for every
payload frame whatsoever (decodable or not), the loop continues, and
iterated consumption never surfaces an error from such an envelope. -/
theorem C10_stale_skips_decoding (s tb : List Nat) (t now : Int) (rest : RecvQueue)
    (ht : intOfBytes tb = some t) (hstale : now - t > 15) :
    ∀ d : List Nat, recvStep now [s, d, tb] = .drop
      ∧ anext ((now, [s, d, tb]) :: rest) = anext rest
      ∧ consume ((now, [s, d, tb]) :: rest) = consume rest := by
  intro d
  have hstep : recvStep now [s, d, tb] = .drop := by
    simp only [recvStep, ht]
    rw [if_pos (by omega)]
  exact ⟨hstep, by rw [anext, hstep], by rw [consume, hstep]⟩

theorem C10_stale_skips_decoding_witness :
    recvStep 100 [[1], [255], [56, 48]] = .drop
    ∧ anext [((100 : Int), [[1], [255], [56, 48]])] = anext []
    ∧ consume [((100 : Int), [[1], [255], [56, 48]])] = consume [] :=
  C10_stale_skips_decoding [1] [56, 48] 80 100 [] rfl (by decide) [255]

end Uspech
